import Mathlib

/-!
Formal model of the spruce-project repository.

The developments below shallowly embed the two components of the
repository that carry its observable behaviour:

* `src/spruce/project/vcs.py` — version-control detection and the
  Subversion last-changed-revision query.  The filesystem is modelled as
  a Boolean `isdir` oracle over absolute paths, where an absolute path is
  a list of path components (the filesystem root is the empty list, and
  `os.path.split` is `List.dropLast`).  The byte-string outputs of the
  shelled-out commands are modelled as `List Char`, and the
  `grep | sed | strip | int()` pipeline is reproduced on that
  representation.  Exceptions are modelled with `Except`:
  `IncompatibleVcsError` and the generic `Error` become constructors of
  `VcsError`, and an uncaught Python `IndexError` (from `split()[1]`)
  becomes a third constructor.

* `src/spruce/project/scripts/doc_gen_rest.py` — the documentation-tree
  builder and renderer.  The module hierarchy is modelled as a rose tree
  (`MTree`/`MForest`), the output-path computation (`reldocpath`,
  `out_filepath`) maps each node to a list of path components, rendering
  is modelled as a list of output effects, and the attribute-visibility
  filter `_should_doc_module_attr` is modelled with explicit state
  passing for the lazily memoised properties it consults.
-/

namespace SpruceProject

/-! ## Filesystem model for vcs.py -/

/-- AbsPath models an absolute filesystem path as its list of path
components; the filesystem root directory is the empty list. -/
abbrev AbsPath := List String

/-- PyStr models a Python 2 byte string as a list of characters. -/
abbrev PyStr := List Char

/-- Embedding of the function git_topdir of src/spruce/project/vcs.py: starting
from the given absolute path, look for a directory containing a .git
subdirectory, walking upward one component at a time (os.path.split) and
stopping at the filesystem root. -/
def git_topdir (isdir : AbsPath → Bool) (p : AbsPath) : Option AbsPath :=
  if isdir (p ++ [".git"]) then some p
  else if h : p = [] then none
  else git_topdir isdir p.dropLast
termination_by p.length
decreasing_by
  have hlen : p.length ≠ 0 := fun hl => h (List.length_eq_zero.mp hl)
  simp [List.length_dropLast]
  omega

/-- upwardChain p is the chain of directories that the loop of git_topdir
visits when started at p: the path itself, then each ancestor up to and
including the filesystem root. -/
def upwardChain (p : AbsPath) : List AbsPath :=
  p :: (if h : p = [] then [] else upwardChain p.dropLast)
termination_by p.length
decreasing_by
  have hlen : p.length ≠ 0 := fun hl => h (List.length_eq_zero.mp hl)
  simp [List.length_dropLast]
  omega

/-- git_topdir_fuel is the loop of git_topdir with an explicit iteration
budget: the outer none means the budget was exhausted before the loop
returned, while some r means the loop returned r within the budget. -/
def git_topdir_fuel (isdir : AbsPath → Bool) : Nat → AbsPath → Option (Option AbsPath)
  | 0, _ => none
  | n + 1, p =>
    if isdir (p ++ [".git"]) then some (some p)
    else if p = [] then some none
    else git_topdir_fuel isdir n p.dropLast

/-- Embedding of the function guess_vcs of src/spruce/project/vcs.py. -/
def guess_vcs (isdir : AbsPath → Bool) (p : AbsPath) : Option String :=
  if isdir (p ++ [".svn"]) then some "svn"
  else
    match git_topdir isdir p with
    | some t => if isdir (t ++ [".git", "svn"]) then some "git-svn" else some "git"
    | none => none

/-! ## Text processing for svn_last_changed_revision -/

/-- isPySpace holds on the characters that Python str.strip and str.split
treat as whitespace. -/
def isPySpace (c : Char) : Bool :=
  c = ' ' || c = '\t' || c = '\n' || c = '\r' || c = Char.ofNat 11 || c = Char.ofNat 12

/-- pyStripChars models Python str.strip with no argument: it removes
leading and trailing whitespace. -/
def pyStripChars (s : PyStr) : PyStr :=
  ((s.dropWhile isPySpace).reverse.dropWhile isPySpace).reverse

/-- splitLinesAux accumulates the current line (reversed) while scanning
for newline separators. -/
def splitLinesAux : PyStr → PyStr → List PyStr
  | [], acc => [acc.reverse]
  | c :: rest, acc =>
    if c = '\n' then acc.reverse :: splitLinesAux rest []
    else splitLinesAux rest (c :: acc)

/-- splitLines splits a byte string into newline-separated chunks, the way
the line-oriented grep and sed commands consume their input. -/
def splitLines (s : PyStr) : List PyStr :=
  splitLinesAux s []

/-- lastChangedRevPat is the pattern given to grep by
svn_last_changed_revision. -/
def lastChangedRevPat : PyStr :=
  "Last Changed Rev".data

/-- grepSedOutput models the shell pipeline
grep 'Last Changed Rev' | sed 's/[^0-9]//g' applied to the output of the
info command: every input line containing the pattern is kept, stripped
of its non-digit characters, and emitted followed by a newline. -/
def grepSedOutput (infoOut : PyStr) : PyStr :=
  (((splitLines infoOut).filter (fun l => decide (lastChangedRevPat <:+: l))).map
    (fun l => l.filter Char.isDigit ++ ['\n'])).flatten

/-- splitWsAux accumulates the current whitespace-free chunk (reversed)
while scanning the string. -/
def splitWsAux : PyStr → PyStr → List PyStr
  | [], acc => if acc = [] then [] else [acc.reverse]
  | c :: rest, acc =>
    if isPySpace c then
      (if acc = [] then splitWsAux rest [] else acc.reverse :: splitWsAux rest [])
    else splitWsAux rest (c :: acc)

/-- pySplitWs models Python str.split with no argument: it splits on runs
of whitespace and never produces empty chunks. -/
def pySplitWs (s : PyStr) : List PyStr :=
  splitWsAux s []

/-- digitsVal is the numeric value of a string of decimal digits. -/
def digitsVal (digits : PyStr) : Int :=
  digits.foldl (fun acc c => acc * 10 + ((c.toNat : Int) - 48)) 0

/-- pyInt models Python int() applied to a string: surrounding whitespace
is ignored, an optional sign is accepted, and the rest must be a nonempty
run of decimal digits; every other input raises ValueError, modelled as
none. -/
def pyInt (t : PyStr) : Option Int :=
  match pyStripChars t with
  | [] => none
  | c :: rest =>
    let sd : Int × PyStr :=
      if c = '-' then (-1, rest) else if c = '+' then (1, rest) else (1, c :: rest)
    if sd.2 = [] then none
    else if sd.2.all Char.isDigit then some (sd.1 * digitsVal sd.2) else none

/-- VcsError models the ways svn_last_changed_revision can fail:
IncompatibleVcsError (carrying the detected system and the compatible
systems), the generic wrapped-text Error (carrying the offending
revision string), and an uncaught Python IndexError escaping from the
fallback expression proc_output.split()[1]. -/
inductive VcsError where
  | incompatibleVcs : Option String → List String → VcsError
  | genericError : String → VcsError
  | indexError : VcsError
deriving DecidableEq

/-- extractedToken is the revision token that svn_last_changed_revision
extracts: the digit-filtered stripped grep output when it is nonempty,
otherwise the second whitespace-separated token of the log output with
its first character removed; none when that fallback indexing fails. -/
def extractedToken (infoOut logOut : PyStr) : Option PyStr :=
  let r := pyStripChars (grepSedOutput infoOut)
  if r = [] then ((pySplitWs logOut).get? 1).map (fun t => t.drop 1)
  else some r

/-- Embedding of the function svn_last_changed_revision of
src/spruce/project/vcs.py.  The outputs of the two shelled-out command
pipelines are passed in as infoOut (the info command) and logOut (the
fallback log command). -/
def svn_last_changed_revision (isdir : AbsPath → Bool) (p : AbsPath)
    (infoOut logOut : PyStr) : Except VcsError Int :=
  let vcs := guess_vcs isdir p
  if ¬ (vcs = some "svn" ∨ vcs = some "git-svn") then
    Except.error (VcsError.incompatibleVcs vcs ["svn", "git-svn"])
  else
    match extractedToken infoOut logOut with
    | none => Except.error VcsError.indexError
    | some t =>
      match pyInt t with
      | some n => Except.ok n
      | none => Except.error (VcsError.genericError (String.mk t))

/-! ## Concrete filesystem fixtures -/

/-- fsSvnOnly is a filesystem whose only directory of interest is a .svn
directory at the root. -/
def fsSvnOnly : AbsPath → Bool := fun q => q == [".svn"]

/-- fsGitAtA is a filesystem whose only directory of interest is a .git
directory inside the root directory a. -/
def fsGitAtA : AbsPath → Bool := fun q => q == ["a", ".git"]

/-- fsBare is a filesystem with no version-control metadata anywhere. -/
def fsBare : AbsPath → Bool := fun _ => false

/-- infoTwoRevLines is an info-command output with two matching
Last Changed Rev lines, whose digit-filtered concatenation is not a valid
integer. -/
def infoTwoRevLines : PyStr :=
  "Last Changed Rev: 12\nLast Changed Rev: 34".data

/-! ## Embedding of doc_gen_rest.py: headings, children, top-level listing -/

/-- Embedding of _rest_heading_lines of doc_gen_rest.py: a reST heading
rendered as its text with an overline and underline of the same length,
drawn in the character selected by the nesting level.  The source
asserts level >= 1 before selecting the character. -/
def rest_heading_lines (text : String) (level : Nat) : List String :=
  let lineChar : Char :=
    if level = 1 then '#'
    else if level = 2 then '*'
    else if level = 3 then '='
    else if level = 4 then '-'
    else if level = 5 then '^'
    else if level = 6 then Char.ofNat 34
    else '+'
  let line : String := String.mk (List.replicate text.length lineChar)
  [line, text, line]

/-- Embedding of _DocSpec._ancestor_included_modulepaths: the
concatenation, nearest ancestor first, of the included_modules_paths of
every ancestor of a node. -/
def ancestor_included_modulepaths : List (List String) → List String
  | [] => []
  | a :: rest => a ++ ancestor_included_modulepaths rest

/-- Embedding of the children property of _ModuleDocSpec: for a package,
the module paths of its direct submodules that appear neither in the
node's own included_modules_paths nor in any ancestor's
included_modules_paths; for a non-package module, the empty list. -/
def children_modulepaths (ispackage : Bool) (submodules included : List String)
    (ancestors : List (List String)) : List String :=
  if ispackage then
    submodules.filter (fun mp =>
      decide (mp ∉ included) && decide (mp ∉ ancestor_included_modulepaths ancestors))
  else []

/-- DNode is a documentation-tree node as consumed by
top_interesting_descendants: its dotted module path together with its
child doc-specs. -/
inductive DNode where
  | mk : String → List DNode → DNode

/-- name is the dotted module path of a documentation-tree node. -/
def DNode.name : DNode → String
  | .mk n _ => n

/-- children is the child list of a documentation-tree node. -/
def DNode.children : DNode → List DNode
  | .mk _ cs => cs

/-- Embedding of _ProjectDocSpec._descendant_is_interesting: a descendant
is interesting unless its name is nisavid. -/
def descendant_is_interesting (d : DNode) : Bool :=
  d.name != "nisavid"

/-- Embedding of _ProjectDocSpec.top_interesting_descendants: for every
project child in order, the child itself when it is interesting,
otherwise the child's direct children in its place. -/
def top_interesting_descendants (children : List DNode) : List DNode :=
  children.flatMap (fun c =>
    if descendant_is_interesting c then [c] else c.children)

/-- dnodeFixture is a concrete project child list with the
namespace-shadowing nisavid node and one ordinary node. -/
def dnodeFixture : List DNode :=
  [DNode.mk "nisavid" [DNode.mk "nisavid.project" []], DNode.mk "spruce" []]

/-! ## Embedding of doc_gen_rest.py: rendering effects -/

/-- PageSpec carries what the renderer consumes from one module doc-spec:
its dotted name, its computed output file path, the composed page body
produced by the introspection-driven documentation walk (external to the
file-writing logic modelled here), and its skip flag. -/
structure PageSpec where
  name : String
  out_filepath : String
  body : List String
  skip : Bool

/-- OutputEffect is one observable output action of the renderer: writing
a file, or printing lines to the standard output stream. -/
inductive OutputEffect where
  | writeFile : String → List String → OutputEffect
  | printStdout : List String → OutputEffect

/-- isWriteFile recognises the on-disk write effect. -/
def OutputEffect.isWriteFile : OutputEffect → Bool
  | .writeFile _ _ => true
  | .printStdout _ => false

/-- Embedding of _rest_file_header_lines of doc_gen_rest.py. -/
def rest_file_header_lines : List String :=
  [".. highlight:: python", "   :linenothreshold: 5", ""]

/-- moduleDocpath is the banner path printed in pretend mode:
os.path.sep.join(docspec.name.split(chr(46))). -/
def moduleDocpath (name : String) : String :=
  String.intercalate "/" (name.splitOn ".")

/-- Embedding of the output routing of _generate_module_rest: the page
lines are composed (with banner lines around them in pretend mode) and
then either printed to standard output (pretend) or written to the
node's output file. -/
def generate_module_rest (pg : PageSpec) (pretend : Bool) : List OutputEffect :=
  let output :=
    (if pretend then ["", moduleDocpath pg.name ++ ".rst", "----"] else [])
    ++ rest_file_header_lines ++ pg.body
    ++ (if pretend then ["----", ""] else [])
  if pretend then [OutputEffect.printStdout output]
  else [OutputEffect.writeFile pg.out_filepath output]

/-- Embedding of the output routing of _generate_project_toplevel_rest:
the composed top-level index lines are printed to standard output in
pretend mode and written to index.rst under the output directory
otherwise. -/
def generate_project_toplevel_rest (out_parentdirpath : String)
    (toplevel_output : List String) (pretend : Bool) : List OutputEffect :=
  if pretend then [OutputEffect.printStdout toplevel_output]
  else [OutputEffect.writeFile (out_parentdirpath ++ "/index.rst") toplevel_output]

/-- Embedding of _generate_project_rests: the project top-level page
followed by one page per non-skipped descendant, in order. -/
def generate_project_rests (out_parentdirpath : String)
    (toplevel_output : List String) (descendants : List PageSpec)
    (pretend : Bool) : List OutputEffect :=
  generate_project_toplevel_rest out_parentdirpath toplevel_output pretend
  ++ (descendants.filter (fun d => !d.skip)).flatMap
      (fun d => generate_module_rest d pretend)

/-! ## Embedding of _should_doc_module_attr with memoised state -/

/-- IncludedModuleInfo is what the attribute filter consults about one
included-module doc-spec: whether its parent is the node being filtered,
its short name, and its attribute-name list (none models the attribute
lookup failing with AttributeError, ImportError or InvalidObject, a
failure the filter swallows by skipping that included module). -/
structure IncludedModuleInfo where
  parentIsNode : Bool
  shortname : String
  attrnames : Option (List String)

/-- ModuleNodeData is the fixed underlying introspection data of one
module doc-spec as consulted by the attribute filter: the built-in
names, the resolved included-module doc-specs of the node and of its
descendants, whether listing the included modules raises IOError, and
the short names of the node's children. -/
structure ModuleNodeData where
  builtinsNames : List String
  includedDocspecs : List IncludedModuleInfo
  descIncludedDocspecs : List IncludedModuleInfo
  includedRaisesIOErr : Bool
  childrenShortnames : List String

/-- ModuleNodeState is a module doc-spec together with its lazily
memoised property caches; none models an unfilled cache. -/
structure ModuleNodeState where
  data : ModuleNodeData
  includedCache : Option (List IncludedModuleInfo)
  descIncludedCache : Option (List IncludedModuleInfo)
  childrenCache : Option (List String)

/-- readIncluded models evaluating included_modules_docspecs, whose
underlying included_modules_paths list is memoised on first access. -/
def readIncluded (st : ModuleNodeState) : List IncludedModuleInfo × ModuleNodeState :=
  match st.includedCache with
  | some v => (v, st)
  | none => (st.data.includedDocspecs,
             { st with includedCache := some st.data.includedDocspecs })

/-- readDescIncluded models evaluating the memoised
descendants_included_modules_docspecs property. -/
def readDescIncluded (st : ModuleNodeState) : List IncludedModuleInfo × ModuleNodeState :=
  match st.descIncludedCache with
  | some v => (v, st)
  | none => (st.data.descIncludedDocspecs,
             { st with descIncludedCache := some st.data.descIncludedDocspecs })

/-- readChildren models evaluating the memoised children property,
projected to the child short names the filter compares against. -/
def readChildren (st : ModuleNodeState) : List String × ModuleNodeState :=
  match st.childrenCache with
  | some v => (v, st)
  | none => (st.data.childrenShortnames,
             { st with childrenCache := some st.data.childrenShortnames })

/-- includedBlockRejects is the included-modules block of
_should_doc_module_attr: the attribute is rejected when it names an
included module whose parent is this node, or when it appears among the
attribute names of an included module of this node or of a descendant;
included modules whose attribute lookup fails are skipped. -/
def includedBlockRejects (included descIncluded : List IncludedModuleInfo)
    (attrname : String) : Bool :=
  included.any (fun i => i.parentIsNode && attrname == i.shortname)
  || (included ++ descIncluded).any (fun i =>
       match i.attrnames with
       | some ns => ns.contains attrname
       | none => false)

/-- startsWithUnderscore models str.startswith applied to the
private-name marker. -/
def startsWithUnderscore (s : String) : Bool :=
  match s.data with
  | c :: _ => c = '_'
  | [] => false

/-- Embedding of _should_doc_module_attr of doc_gen_rest.py, with the
memoised properties it consults modelled by explicit state passing: it
returns the acceptance decision together with the node state after the
call.  An IOError from listing the included modules skips the whole
included-modules block without filling any cache. -/
def should_doc_module_attr (st : ModuleNodeState) (attrname : String)
    (module_isincluded : Bool) : Bool × ModuleNodeState :=
  if st.data.builtinsNames.contains attrname then (false, st)
  else if startsWithUnderscore attrname then (false, st)
  else if attrname == "extension" then (false, st)
  else if st.data.includedRaisesIOErr then
    if !module_isincluded then
      let rc := readChildren st
      if rc.1.contains attrname then (false, rc.2) else (true, rc.2)
    else (true, st)
  else
    let ri := readIncluded st
    let rd := readDescIncluded ri.2
    if includedBlockRejects ri.1 rd.1 attrname then (false, rd.2)
    else if !module_isincluded then
      let rc := readChildren rd.2
      if rc.1.contains attrname then (false, rc.2) else (true, rc.2)
    else (true, rd.2)

/-- decisionOf is the acceptance decision of the attribute filter as a
pure function of the underlying node data. -/
def decisionOf (d : ModuleNodeData) (attrname : String)
    (module_isincluded : Bool) : Bool :=
  if d.builtinsNames.contains attrname then false
  else if startsWithUnderscore attrname then false
  else if attrname == "extension" then false
  else if d.includedRaisesIOErr then
    if !module_isincluded then
      if d.childrenShortnames.contains attrname then false else true
    else true
  else if includedBlockRejects d.includedDocspecs d.descIncludedDocspecs attrname then
    false
  else if !module_isincluded then
    if d.childrenShortnames.contains attrname then false else true
  else true

/-- cachesConsistent holds when every filled cache of the node state
agrees with the underlying introspection data. -/
def cachesConsistent (st : ModuleNodeState) : Prop :=
  (st.includedCache = none ∨ st.includedCache = some st.data.includedDocspecs)
  ∧ (st.descIncludedCache = none ∨ st.descIncludedCache = some st.data.descIncludedDocspecs)
  ∧ (st.childrenCache = none ∨ st.childrenCache = some st.data.childrenShortnames)

/-- moduleNodeFixture is a concrete module doc-spec state with no cache
filled. -/
def moduleNodeFixture : ModuleNodeState :=
  { data := { builtinsNames := ["len"], includedDocspecs := [],
              descIncludedDocspecs := [], includedRaisesIOErr := false,
              childrenShortnames := ["sub"] },
    includedCache := none, descIncludedCache := none, childrenCache := none }

/-! ## Embedding of the output-path computation over the module tree

The output file path of a doc-spec (out_filepath) is
join(root.out_parentdirpath, docpath + chr(46) + rst), where docpath
chains the short names of the ancestors (each node's children are
written under a directory named after the node) and ends with the
node's reldocpath.  Paths are modelled as lists of path components
relative to the output root; module short names contain no path
separator, so two out_filepath strings are equal exactly when their
component lists are. -/

mutual
/-- MTree is a module doc-spec of the documentation tree: its short name
together with the forest of its children. -/
inductive MTree where
  | node : String → MForest → MTree
/-- MForest is a list of sibling module doc-specs. -/
inductive MForest where
  | nil : MForest
  | cons : MTree → MForest → MForest
end

/-- shortname is the final dotted-path component of a module doc-spec. -/
def MTree.shortname : MTree → String
  | .node s _ => s

/-- childforest is the children forest of a module doc-spec. -/
def MTree.childforest : MTree → MForest
  | .node _ cs => cs

/-- isNil recognises the empty forest (a childless doc-spec). -/
def MForest.isNil : MForest → Bool
  | .nil => true
  | .cons _ _ => false

/-- toList converts a forest to the list of its trees. -/
def MForest.toList : MForest → List MTree
  | .nil => []
  | .cons t ts => t :: ts.toList

/-- shortnames lists the short names of the trees of a forest. -/
def MForest.shortnames : MForest → List String
  | .nil => []
  | .cons t ts => t.shortname :: ts.shortnames

/-- anyTree tests whether some tree of the forest satisfies the given
Boolean predicate. -/
def MForest.anyTree (pr : MTree → Bool) : MForest → Bool
  | .nil => false
  | .cons t ts => pr t || MForest.anyTree pr ts

/-- leafkey is the output file name (without extension) of a childless
doc-spec: its short name, with an underscore appended exactly when the
short name is index. -/
def leafkey (s : String) : String :=
  if s = "index" then "index_" else s

/-- Embedding of _DocSpec.reldocpath for module nodes, as path
components: a node with children maps to shortname/index, a childless
node maps to its leafkey. -/
def reldocparts (s : String) (cs : MForest) : List String :=
  if cs.isNil then (if s = "index" then ["index_"] else [s]) else [s, "index"]

mutual
/-- outpathsT collects the out_filepath component lists of every node of
a subtree whose parent output directory is d: the node's own path is
d ++ reldocparts, and its children are written under d ++ shortname. -/
def outpathsT : MTree → List String → List (List String)
  | .node s cs, d => (d ++ reldocparts s cs) :: outpathsF cs (d ++ [s])
/-- outpathsF collects the out_filepath component lists of every node of
a forest of sibling subtrees. -/
def outpathsF : MForest → List String → List (List String)
  | .nil, _ => []
  | .cons t ts, d => outpathsT t d ++ outpathsF ts d
end

/-- project_outpaths collects the out_filepath component lists of a whole
documentation tree: the project root maps to index at the output root,
and the top-level modules are written directly under the output root. -/
def project_outpaths (cs : MForest) : List (List String) :=
  ["index"] :: outpathsF cs []

/-- isLeafNamed recognises a childless doc-spec with the given short
name. -/
def isLeafNamed (nm : String) : MTree → Bool
  | .node s cs => s == nm && cs.isNil

/-- hasLeafIndexPair holds when a sibling forest contains both a
childless node named index and a childless node named index_. -/
def hasLeafIndexPair (cs : MForest) : Bool :=
  cs.anyTree (isLeafNamed "index") && cs.anyTree (isLeafNamed "index_")

/-- nodupBool decides that a list of strings has no duplicates. -/
def nodupBool : List String → Bool
  | [] => true
  | s :: rest => !(decide (s ∈ rest)) && nodupBool rest

mutual
/-- goodT holds when every sibling list in a subtree has pairwise
distinct short names (true of a module hierarchy) and never pairs a
childless index with a childless index_. -/
def goodT : MTree → Bool
  | .node _ cs => nodupBool cs.shortnames && !hasLeafIndexPair cs && goodF cs
/-- goodF holds when goodT holds of every tree of the forest. -/
def goodF : MForest → Bool
  | .nil => true
  | .cons t ts => goodT t && goodF ts
end

/-- ShapeProp describes the form of any output path p produced inside
the subtree of t under parent directory d: p extends d, either by the
single leafkey component of a childless t, or by a path that starts
with the short name of t and continues nontrivially. -/
def ShapeProp (t : MTree) (d p : List String) : Prop :=
  ∃ e, p = d ++ e ∧
    ((t.childforest.isNil = true ∧ e = [leafkey t.shortname])
     ∨ ∃ e2, e = t.shortname :: e2 ∧ e2 ≠ [])

/-- c1Fixture is a concrete well-formed documentation forest. -/
def c1Fixture : MForest :=
  .cons (.node "spruce" (.cons (.node "project" .nil) .nil))
    (.cons (.node "index" .nil) .nil)

/-- c1Collision is a sibling pair of childless modules named index and
index_, both of which map to the output name index_. -/
def c1Collision : MForest :=
  .cons (.node "index" .nil) (.cons (.node "index_" .nil) .nil)

/-! ## Theorems about vcs.py -/

/-- git_topdir_fuel_terminates_aux shows the bounded loop agrees with
git_topdir whenever the budget exceeds the path length. -/
theorem git_topdir_fuel_terminates_aux (isdir : AbsPath → Bool) :
    ∀ (n : Nat) (p : AbsPath), p.length < n →
      git_topdir_fuel isdir n p = some (git_topdir isdir p)
  | 0, _, h => absurd h (Nat.not_lt_zero _)
  | n + 1, p, h => by
    rw [git_topdir_fuel, git_topdir]
    by_cases hg : isdir (p ++ [".git"]) = true
    · simp [hg]
    · simp only [hg, Bool.false_eq_true, if_false]
      by_cases h0 : p = []
      · simp [h0]
      · simp only [h0, if_false, dif_neg, not_false_iff]
        apply git_topdir_fuel_terminates_aux isdir n p.dropLast
        have hlen : p.length ≠ 0 := fun hl => h0 (List.length_eq_zero.mp hl)
        simp only [List.length_dropLast]
        omega

/-- git_topdir_fuel_none shows the bounded loop answers none within the
budget when no directory of the visited chain contains .git. -/
theorem git_topdir_fuel_none (isdir : AbsPath → Bool) :
    ∀ (n : Nat) (p : AbsPath), p.length < n →
      (∀ t ∈ upwardChain p, isdir (t ++ [".git"]) = false) →
      git_topdir_fuel isdir n p = some none := by
  intro n
  induction n with
  | zero => exact fun p h _ => absurd h (Nat.not_lt_zero _)
  | succ n ih =>
    intro p h hall
    have hp : isdir (p ++ [".git"]) = false := by
      apply hall
      rw [upwardChain]
      exact List.mem_cons_self _ _
    rw [git_topdir_fuel, hp]
    simp only [Bool.false_eq_true, if_false]
    by_cases h0 : p = []
    · simp [h0]
    · simp only [h0, if_false]
      apply ih
      · have hlen : p.length ≠ 0 := fun hl => h0 (List.length_eq_zero.mp hl)
        simp only [List.length_dropLast]
        omega
      · intro t ht
        apply hall
        rw [upwardChain]
        apply List.mem_cons_of_mem
        rw [dif_neg h0]
        exact ht

/-- upwardChain_none_git is the upward-search half of guess_vcs: if no
directory in the visited chain contains .git, git_topdir returns none. -/
theorem upwardChain_none_git (isdir : AbsPath → Bool) (p : AbsPath)
    (hall : ∀ t ∈ upwardChain p, isdir (t ++ [".git"]) = false) :
    git_topdir isdir p = none := by
  have h1 := git_topdir_fuel_terminates_aux isdir (p.length + 1) p (Nat.lt_succ_self _)
  have h2 := git_topdir_fuel_none isdir (p.length + 1) p (Nat.lt_succ_self _) hall
  rw [h1] at h2
  exact Option.some.inj h2

/-- C3: guess_vcs answers svn exactly when a .svn directory exists at the
given path; otherwise, when the upward search of git_topdir finds a
directory t containing .git, it answers git-svn or git according to
whether t/.git/svn exists; and when no directory in the upward chain to
the filesystem root contains .git, it answers none instead of failing. -/
theorem guess_vcs_characterisation (isdir : AbsPath → Bool) (p : AbsPath) :
    (isdir (p ++ [".svn"]) = true → guess_vcs isdir p = some "svn")
    ∧ (isdir (p ++ [".svn"]) = false →
        ∀ t, git_topdir isdir p = some t →
          guess_vcs isdir p = some (if isdir (t ++ [".git", "svn"]) then "git-svn" else "git"))
    ∧ (isdir (p ++ [".svn"]) = false →
        (∀ t ∈ upwardChain p, isdir (t ++ [".git"]) = false) →
        guess_vcs isdir p = none) := by
  refine ⟨fun hs => ?_, fun hs t ht => ?_, fun hs hall => ?_⟩
  · simp [guess_vcs, hs]
  · simp only [guess_vcs, hs, Bool.false_eq_true, if_false, ht]
    by_cases hg : isdir (t ++ [".git", "svn"]) <;> simp [hg]
  · have hnone := upwardChain_none_git isdir p hall
    simp [guess_vcs, hs, hnone]

/-- C3 witness: the three branches of guess_vcs_characterisation at
concrete filesystems. -/
theorem guess_vcs_characterisation_witness :
    guess_vcs fsSvnOnly [] = some "svn"
    ∧ guess_vcs fsGitAtA ["a", "b"] =
        some (if fsGitAtA (["a"] ++ [".git", "svn"]) then "git-svn" else "git")
    ∧ guess_vcs fsBare ["a"] = none := by
  have hg : git_topdir fsGitAtA ["a", "b"] = some ["a"] := by
    have h1 := git_topdir_fuel_terminates_aux fsGitAtA 3 ["a", "b"] (by decide)
    have h2 : git_topdir_fuel fsGitAtA 3 ["a", "b"] = some (some ["a"]) := by decide
    rw [h1] at h2
    exact Option.some.inj h2
  exact ⟨(guess_vcs_characterisation fsSvnOnly []).1 (by decide),
         (guess_vcs_characterisation fsGitAtA ["a", "b"]).2.1 (by decide) ["a"] hg,
         (guess_vcs_characterisation fsBare ["a"]).2.2 (by decide) (fun t ht => rfl)⟩

/-- C10: the upward search of git_topdir terminates: started on a path of
length n it returns within n + 1 iterations, because every iteration
either returns, stops at the filesystem root, or strictly shortens the
path by splitting off its last component. -/
theorem git_topdir_fuel_terminates (isdir : AbsPath → Bool) (n : Nat) (p : AbsPath)
    (h : p.length < n) : git_topdir_fuel isdir n p = some (git_topdir isdir p) :=
  git_topdir_fuel_terminates_aux isdir n p h

/-- C10 witness: the bounded search agrees with git_topdir on a concrete
two-component path within three iterations. -/
theorem git_topdir_fuel_terminates_witness :
    (["a", "b"] : AbsPath).length < 3
    ∧ git_topdir_fuel fsGitAtA 3 ["a", "b"] = some (git_topdir fsGitAtA ["a", "b"]) :=
  ⟨by decide, git_topdir_fuel_terminates fsGitAtA 3 ["a", "b"] (by decide)⟩

/-- C4: svn_last_changed_revision fails with IncompatibleVcsError,
carrying the detected system and the compatible set, exactly when the
detected system is neither svn nor git-svn; when the detected system is
one of those two, no IncompatibleVcsError is produced. -/
theorem svn_last_changed_revision_incompatible (isdir : AbsPath → Bool) (p : AbsPath)
    (infoOut logOut : PyStr) :
    (¬ (guess_vcs isdir p = some "svn" ∨ guess_vcs isdir p = some "git-svn") →
      svn_last_changed_revision isdir p infoOut logOut
        = Except.error (VcsError.incompatibleVcs (guess_vcs isdir p) ["svn", "git-svn"]))
    ∧ ((guess_vcs isdir p = some "svn" ∨ guess_vcs isdir p = some "git-svn") →
      ∀ v cs, svn_last_changed_revision isdir p infoOut logOut
        ≠ Except.error (VcsError.incompatibleVcs v cs)) := by
  constructor
  · intro hbad
    simp [svn_last_changed_revision, hbad]
  · intro hgood v cs
    simp only [svn_last_changed_revision]
    rw [if_neg (not_not_intro hgood)]
    split
    · simp
    · split <;> simp

/-- C4 witness: a concrete unversioned filesystem produces the
incompatibility error, and a concrete Subversion filesystem never does. -/
theorem svn_last_changed_revision_incompatible_witness :
    svn_last_changed_revision fsBare ["a"] [] []
      = Except.error (VcsError.incompatibleVcs (guess_vcs fsBare ["a"]) ["svn", "git-svn"])
    ∧ svn_last_changed_revision fsSvnOnly [] [] []
      ≠ Except.error (VcsError.incompatibleVcs none []) := by
  constructor
  · apply (svn_last_changed_revision_incompatible fsBare ["a"] [] []).1
    have hg : git_topdir fsBare ["a"] = none :=
      upwardChain_none_git fsBare ["a"] (fun t ht => rfl)
    simp [guess_vcs, hg, fsBare]
  · exact (svn_last_changed_revision_incompatible fsSvnOnly [] [] []).2
      (Or.inl (by decide)) none []

/-- C7 (amended): when the detected system is compatible and either the
digit-filtered info output is nonempty or the fallback log output has at
least two whitespace-separated tokens, token extraction succeeds with
some token t, and svn_last_changed_revision fails with the generic
wrapped-text Error exactly when t is not a valid integer, returning the
parsed revision otherwise; no other kind of failure occurs under these
hypotheses. -/
theorem svn_token_invalid_generic_error (isdir : AbsPath → Bool) (p : AbsPath)
    (infoOut logOut : PyStr)
    (hsup : guess_vcs isdir p = some "svn" ∨ guess_vcs isdir p = some "git-svn")
    (hext : pyStripChars (grepSedOutput infoOut) ≠ [] ∨ 2 ≤ (pySplitWs logOut).length) :
    ∃ t, extractedToken infoOut logOut = some t
    ∧ ((pyInt t = none ∧
          svn_last_changed_revision isdir p infoOut logOut
            = Except.error (VcsError.genericError (String.mk t)))
       ∨ (∃ n, pyInt t = some n ∧
          svn_last_changed_revision isdir p infoOut logOut = Except.ok n)) := by
  have hsome : ∃ t, extractedToken infoOut logOut = some t := by
    unfold extractedToken
    by_cases hr : pyStripChars (grepSedOutput infoOut) = []
    · rcases hext with hx | hx
      · exact absurd hr hx
      · have h1 : 1 < (pySplitWs logOut).length := by omega
        rw [if_pos hr, List.get?_eq_get h1]
        exact ⟨((pySplitWs logOut).get ⟨1, h1⟩).drop 1, rfl⟩
    · rw [if_neg hr]
      exact ⟨_, rfl⟩
  rcases hsome with ⟨t, ht⟩
  refine ⟨t, ht, ?_⟩
  have hres : svn_last_changed_revision isdir p infoOut logOut =
      (match pyInt t with
       | some n => Except.ok n
       | none => Except.error (VcsError.genericError (String.mk t))) := by
    simp only [svn_last_changed_revision]
    rw [if_neg (not_not_intro hsup), ht]
  rcases hpy : pyInt t with _ | n
  · exact Or.inl ⟨rfl, by rw [hres, hpy]⟩
  · exact Or.inr ⟨n, rfl, by rw [hres, hpy]⟩

/-- C7 witness: a concrete Subversion project whose info output holds two
matching lines; the extracted token contains an embedded newline, is not
a valid integer, and produces the generic Error. -/
theorem svn_token_invalid_generic_error_witness :
    ∃ t, extractedToken infoTwoRevLines [] = some t
    ∧ ((pyInt t = none ∧
          svn_last_changed_revision fsSvnOnly [] infoTwoRevLines []
            = Except.error (VcsError.genericError (String.mk t)))
       ∨ (∃ n, pyInt t = some n ∧
          svn_last_changed_revision fsSvnOnly [] infoTwoRevLines [] = Except.ok n)) :=
  svn_token_invalid_generic_error fsSvnOnly [] infoTwoRevLines []
    (Or.inl (by decide)) (Or.inl (by decide))

/-- C7 counterexample: on a Subversion project whose info output filters
to nothing and whose log output has fewer than two whitespace-separated
tokens, svn_last_changed_revision fails with the uncaught IndexError of
the fallback expression split()[1], not with the generic Error. -/
theorem svn_token_indexerror_counterexample :
    svn_last_changed_revision fsSvnOnly [] [] [] = Except.error VcsError.indexError
    ∧ ∀ s, svn_last_changed_revision fsSvnOnly [] [] []
        ≠ Except.error (VcsError.genericError s) := by
  have h0 : svn_last_changed_revision fsSvnOnly [] [] []
      = Except.error VcsError.indexError := rfl
  refine ⟨h0, fun s h => ?_⟩
  rw [h0] at h
  exact VcsError.noConfusion (Except.error.inj h)

/-- C8: for every heading text and every supported nesting level (the
source asserts level >= 1), the generated overline and underline have
exactly the character length of the heading text. -/
theorem rest_heading_lines_length (text : String) (level : Nat) (h : 1 ≤ level) :
    ∃ line, rest_heading_lines text level = [line, text, line]
    ∧ line.length = text.length := by
  refine ⟨_, rfl, ?_⟩
  show (String.mk (List.replicate text.length _)).length = text.length
  show (List.replicate text.length _).length = text.length
  exact List.length_replicate _ _

/-- C8 witness: the heading lines for a concrete text at level 2. -/
theorem rest_heading_lines_length_witness :
    1 ≤ 2 ∧ ∃ line, rest_heading_lines "Modules" 2 = [line, "Modules", line]
    ∧ line.length = ("Modules" : String).length :=
  ⟨by decide, rest_heading_lines_length "Modules" 2 (by decide)⟩

/-- C2: a module path is a child of a package node exactly when it is a
direct submodule listed neither in the node's own included module paths
nor in any ancestor's; consequently a path listed as included by the
node or by any ancestor never appears among the node's children. -/
theorem children_modulepaths_spec (submodules included : List String)
    (ancestors : List (List String)) :
    (∀ mp, mp ∈ children_modulepaths true submodules included ancestors ↔
      (mp ∈ submodules ∧ mp ∉ included ∧ ∀ a ∈ ancestors, mp ∉ a))
    ∧ (∀ mp, (mp ∈ included ∨ ∃ a ∈ ancestors, mp ∈ a) →
        mp ∉ children_modulepaths true submodules included ancestors) := by
  have hanc : ∀ mp, mp ∈ ancestor_included_modulepaths ancestors ↔
      ∃ a ∈ ancestors, mp ∈ a := by
    intro mp
    induction ancestors with
    | nil => simp [ancestor_included_modulepaths]
    | cons a rest ih => simp [ancestor_included_modulepaths, ih]
  have hmain : ∀ mp, mp ∈ children_modulepaths true submodules included ancestors ↔
      (mp ∈ submodules ∧ mp ∉ included ∧ ∀ a ∈ ancestors, mp ∉ a) := by
    intro mp
    simp only [children_modulepaths, if_pos, List.mem_filter, Bool.and_eq_true,
               decide_eq_true_eq, hanc mp]
    constructor
    · rintro ⟨hsub, hni, hnanc⟩
      exact ⟨hsub, hni, fun a ha hmem => hnanc ⟨a, ha, hmem⟩⟩
    · rintro ⟨hsub, hni, hnanc⟩
      exact ⟨hsub, hni, fun ⟨a, ha, hmem⟩ => hnanc a ha hmem⟩
  refine ⟨hmain, fun mp hor hmem => ?_⟩
  rcases (hmain mp).mp hmem with ⟨_, hni, hnanc⟩
  rcases hor with h | ⟨a, ha, hmem2⟩
  · exact hni h
  · exact hnanc a ha hmem2

/-- C2 witness: a concrete included submodule path is excluded from the
children of its package. -/
theorem children_modulepaths_spec_witness :
    "pkg.a" ∉ children_modulepaths true ["pkg.a", "pkg.b"] ["pkg.a"] [] :=
  (children_modulepaths_spec ["pkg.a", "pkg.b"] ["pkg.a"] []).2 "pkg.a"
    (Or.inl (by decide))

/-- C5: under the structural fact that a child doc-spec's dotted name
extends its parent's name by a dot-separated component, the node named
nisavid never occurs in the top-level interesting-descendants listing,
and a node occurs in that listing exactly when it is an interesting
project child or a direct child of an uninteresting project child
standing in its place. -/
theorem top_interesting_descendants_spec (cs : List DNode)
    (hdot : ∀ c ∈ cs, ∀ g ∈ c.children, ∃ s, g.name = c.name ++ "." ++ s) :
    (∀ n ∈ top_interesting_descendants cs, n.name ≠ "nisavid")
    ∧ (∀ n, n ∈ top_interesting_descendants cs ↔
        ((n ∈ cs ∧ n.name ≠ "nisavid")
         ∨ ∃ c ∈ cs, c.name = "nisavid" ∧ n ∈ c.children)) := by
  have hiff : ∀ (c n : DNode),
      (n ∈ if descendant_is_interesting c then [c] else c.children) ↔
      ((c.name ≠ "nisavid" ∧ n = c) ∨ (c.name = "nisavid" ∧ n ∈ c.children)) := by
    intro c n
    by_cases hb : c.name = "nisavid"
    · rw [if_neg (by simp [descendant_is_interesting, hb])]
      simp [hb]
    · rw [if_pos (by simp [descendant_is_interesting, hb])]
      simp [hb]
  have hmem : ∀ n, n ∈ top_interesting_descendants cs ↔
      ∃ c ∈ cs, ((c.name ≠ "nisavid" ∧ n = c) ∨ (c.name = "nisavid" ∧ n ∈ c.children)) := by
    intro n
    simp only [top_interesting_descendants, List.mem_flatMap, hiff]
  have hpart1 : ∀ n ∈ top_interesting_descendants cs, n.name ≠ "nisavid" := by
    intro n hn
    rcases (hmem n).mp hn with ⟨c, hc, hcase⟩
    rcases hcase with ⟨hne, rfl⟩ | ⟨hcname, hncld⟩
    · exact hne
    · rcases hdot c hc n hncld with ⟨s, hs⟩
      intro heq
      rw [heq, hcname] at hs
      have hlen := congrArg String.length hs
      rw [String.length_append, String.length_append] at hlen
      have hdotlen : ("." : String).length = 1 := rfl
      rw [hdotlen] at hlen
      omega
  refine ⟨hpart1, fun n => ?_⟩
  rw [hmem n]
  constructor
  · rintro ⟨c, hc, ⟨hne, rfl⟩ | ⟨hcname, hncld⟩⟩
    · exact Or.inl ⟨hc, hne⟩
    · exact Or.inr ⟨c, hc, hcname, hncld⟩
  · rintro (⟨hc, hne⟩ | ⟨c, hc, hcname, hncld⟩)
    · exact ⟨n, hc, Or.inl ⟨hne, rfl⟩⟩
    · exact ⟨c, hc, Or.inr ⟨hcname, hncld⟩⟩

/-- C5 witness: on the concrete fixture, the grandchild standing in for
the nisavid node appears in the listing, and it is not named nisavid. -/
theorem top_interesting_descendants_spec_witness :
    DNode.mk "nisavid.project" [] ∈ top_interesting_descendants dnodeFixture := by
  have hdot : ∀ c ∈ dnodeFixture, ∀ g ∈ c.children,
      ∃ s, g.name = c.name ++ "." ++ s := by
    intro c hc g hg
    rcases hc with _ | ⟨_, hc⟩
    · rcases hg with _ | ⟨_, hg⟩
      · exact ⟨"project", by decide⟩
      · exact absurd hg (List.not_mem_nil _)
    · rcases hc with _ | ⟨_, hc⟩
      · exact absurd hg (List.not_mem_nil _)
      · exact absurd hc (List.not_mem_nil _)
  exact ((top_interesting_descendants_spec dnodeFixture hdot).2 _).mpr
    (Or.inr ⟨DNode.mk "nisavid" [DNode.mk "nisavid.project" []],
             List.mem_cons_self _ _, rfl, List.mem_cons_self _ _⟩)

/-- C6: rendering a doc-spec tree in pretend mode performs no file
write: every emitted effect is a print to the single standard output
stream, and the effect list is exactly the composed top-level page
followed by, for each non-skipped descendant, its composed page wrapped
in path banner lines. -/
theorem generate_project_rests_pretend (out_parentdirpath : String)
    (toplevel_output : List String) (descendants : List PageSpec) :
    (∀ e ∈ generate_project_rests out_parentdirpath toplevel_output descendants true,
      e.isWriteFile = false)
    ∧ generate_project_rests out_parentdirpath toplevel_output descendants true =
        OutputEffect.printStdout toplevel_output ::
          (descendants.filter (fun d => !d.skip)).map (fun d =>
            OutputEffect.printStdout
              (["", moduleDocpath d.name ++ ".rst", "----"]
               ++ rest_file_header_lines ++ d.body ++ ["----", ""])) := by
  have hmap : ∀ (l : List PageSpec) (f : PageSpec → OutputEffect),
      (l.flatMap fun d => [f d]) = l.map f := by
    intro l f
    induction l with
    | nil => rfl
    | cons a l ih => simp [ih]
  have heq : generate_project_rests out_parentdirpath toplevel_output descendants true =
      OutputEffect.printStdout toplevel_output ::
        (descendants.filter (fun d => !d.skip)).map (fun d =>
          OutputEffect.printStdout
            (["", moduleDocpath d.name ++ ".rst", "----"]
             ++ rest_file_header_lines ++ d.body ++ ["----", ""])) := by
    simp only [generate_project_rests, generate_project_toplevel_rest,
               generate_module_rest, if_pos]
    rw [hmap]
    rfl
  refine ⟨fun e he => ?_, heq⟩
  rw [heq] at he
  rcases he with _ | ⟨_, he⟩
  · rfl
  · rcases List.mem_map.mp he with ⟨d, _, rfl⟩
    rfl

set_option maxHeartbeats 1600000 in
/-- should_doc_fst shows one filter call on a consistent state decides
by decisionOf applied to the underlying data. -/
theorem should_doc_fst (st : ModuleNodeState) (a : String) (mi : Bool)
    (h : cachesConsistent st) :
    (should_doc_module_attr st a mi).1 = decisionOf st.data a mi := by
  obtain ⟨d, ic, dc, cc⟩ := st
  obtain ⟨h1, h2, h3⟩ := h
  simp only at h1 h2 h3
  rcases h1 with rfl | rfl <;> rcases h2 with rfl | rfl <;> rcases h3 with rfl | rfl <;>
    (dsimp only [should_doc_module_attr, decisionOf, readIncluded, readDescIncluded,
                 readChildren]
     split_ifs <;> rfl)

set_option maxHeartbeats 1600000 in
/-- should_doc_data shows one filter call never changes the underlying
introspection data of the node. -/
theorem should_doc_data (st : ModuleNodeState) (a : String) (mi : Bool) :
    (should_doc_module_attr st a mi).2.data = st.data := by
  obtain ⟨d, ic, dc, cc⟩ := st
  rcases ic with _ | vi <;> rcases dc with _ | vd <;> rcases cc with _ | vc <;>
    (dsimp only [should_doc_module_attr, readIncluded, readDescIncluded, readChildren]
     split_ifs <;> rfl)

set_option maxHeartbeats 1600000 in
/-- should_doc_consistent shows one filter call on a consistent state
only fills caches with their underlying values. -/
theorem should_doc_consistent (st : ModuleNodeState) (a : String) (mi : Bool)
    (h : cachesConsistent st) :
    cachesConsistent (should_doc_module_attr st a mi).2 := by
  obtain ⟨d, ic, dc, cc⟩ := st
  obtain ⟨h1, h2, h3⟩ := h
  simp only at h1 h2 h3
  rcases h1 with rfl | rfl <;> rcases h2 with rfl | rfl <;> rcases h3 with rfl | rfl <;>
    (dsimp only [should_doc_module_attr, readIncluded, readDescIncluded, readChildren]
     split_ifs <;> simp [cachesConsistent])

/-- C9: evaluating the attribute filter twice on the same node yields
the same acceptance decision both times: a call only fills memoised
caches consistently with the underlying introspection data, so
re-running the filter on the state left by the first call decides
identically; in particular an attribute accepted once is accepted
again. -/
theorem should_doc_module_attr_deterministic (st : ModuleNodeState) (attrname : String)
    (module_isincluded : Bool) (h : cachesConsistent st) :
    ((should_doc_module_attr
        ((should_doc_module_attr st attrname module_isincluded).2)
        attrname module_isincluded).1
      = (should_doc_module_attr st attrname module_isincluded).1)
    ∧ ((should_doc_module_attr st attrname module_isincluded).1 = true →
        (should_doc_module_attr
          ((should_doc_module_attr st attrname module_isincluded).2)
          attrname module_isincluded).1 = true) := by
  have heq : (should_doc_module_attr
      ((should_doc_module_attr st attrname module_isincluded).2)
      attrname module_isincluded).1
      = (should_doc_module_attr st attrname module_isincluded).1 := by
    rw [should_doc_fst _ _ _ (should_doc_consistent st attrname module_isincluded h),
        should_doc_data st attrname module_isincluded,
        should_doc_fst st attrname module_isincluded h]
  exact ⟨heq, fun ht => heq.trans ht⟩

/-- C9 witness: the filter run twice on a concrete fresh node state
decides identically. -/
theorem should_doc_module_attr_deterministic_witness :
    cachesConsistent moduleNodeFixture
    ∧ ((should_doc_module_attr
          ((should_doc_module_attr moduleNodeFixture "foo" false).2) "foo" false).1
        = (should_doc_module_attr moduleNodeFixture "foo" false).1) :=
  ⟨⟨Or.inl rfl, Or.inl rfl, Or.inl rfl⟩,
   (should_doc_module_attr_deterministic moduleNodeFixture "foo" false
     ⟨Or.inl rfl, Or.inl rfl, Or.inl rfl⟩).1⟩

/-- reldocparts_isNil computes the output name of a childless node. -/
theorem reldocparts_isNil (s : String) (cs : MForest) (h : cs.isNil = true) :
    reldocparts s cs = [leafkey s] := by
  rw [reldocparts, if_pos h]
  unfold leafkey
  split_ifs <;> rfl

/-- reldocparts_cons computes the output name of a node with children. -/
theorem reldocparts_cons (s : String) (cs : MForest) (h : cs.isNil = false) :
    reldocparts s cs = [s, "index"] := by
  rw [reldocparts, h]
  simp

/-- leafkey_ne_index shows no childless node is ever written to the
reserved name index. -/
theorem leafkey_ne_index (s : String) : leafkey s ≠ "index" := by
  unfold leafkey
  split_ifs with h
  · decide
  · exact h

/-- leafkey_eq_cases inverts a collision of two leaf output names. -/
theorem leafkey_eq_cases (s1 s2 : String) (h : leafkey s1 = leafkey s2)
    (hne : s1 ≠ s2) :
    (s1 = "index" ∧ s2 = "index_") ∨ (s1 = "index_" ∧ s2 = "index") := by
  unfold leafkey at h
  split_ifs at h with ha hb hb
  · exact absurd (ha.trans hb.symm) hne
  · exact Or.inl ⟨ha, h.symm⟩
  · exact Or.inr ⟨h, hb⟩
  · exact absurd h hne

/-- isLeafNamed_iff characterises the childless-node recogniser. -/
theorem isLeafNamed_iff (nm : String) (t : MTree) :
    isLeafNamed nm t = true ↔ (t.shortname = nm ∧ t.childforest.isNil = true) := by
  cases t with
  | node s cs => simp [isLeafNamed, MTree.shortname, MTree.childforest]

/-- mem_toList_shortname sends forest membership to short-name
membership. -/
theorem mem_toList_shortname : ∀ (ts : MForest) (t : MTree),
    t ∈ ts.toList → t.shortname ∈ ts.shortnames
  | .nil, t, h => absurd h (List.not_mem_nil _)
  | .cons t0 ts, t, h => by
    rw [MForest.toList] at h
    rw [MForest.shortnames]
    rcases List.mem_cons.mp h with rfl | h2
    · exact List.mem_cons_self _ _
    · exact List.mem_cons_of_mem _ (mem_toList_shortname ts t h2)

/-- anyTree_of_mem shows anyTree holds of a forest containing a witness
tree. -/
theorem anyTree_of_mem (pr : MTree → Bool) : ∀ (ts : MForest) (t : MTree),
    t ∈ ts.toList → pr t = true → ts.anyTree pr = true
  | .nil, t, h, _ => absurd h (List.not_mem_nil _)
  | .cons t0 ts, t, h, hp => by
    rw [MForest.anyTree]
    rcases List.mem_cons.mp (by rw [MForest.toList] at h; exact h) with rfl | h2
    · rw [hp]
      simp
    · rw [anyTree_of_mem pr ts t h2 hp]
      simp

/-- ShapeProp_parts extracts the nonempty extension of an output path. -/
theorem ShapeProp_parts (t : MTree) (d p : List String) (h : ShapeProp t d p) :
    ∃ e, p = d ++ e ∧ e ≠ [] := by
  obtain ⟨e, he, hc⟩ := h
  refine ⟨e, he, ?_⟩
  rcases hc with ⟨_, rfl⟩ | ⟨e2, rfl, _⟩ <;> simp

mutual
/-- shapeT shows every output path of a subtree has the shape described
by ShapeProp. -/
theorem shapeT : ∀ (t : MTree) (d p : List String), p ∈ outpathsT t d → ShapeProp t d p
  | .node s cs, d, p, hp => by
    rw [outpathsT] at hp
    rcases List.mem_cons.mp hp with rfl | hp2
    · by_cases hnil : cs.isNil = true
      · exact ⟨[leafkey s], by rw [reldocparts_isNil s cs hnil], Or.inl ⟨hnil, rfl⟩⟩
      · have hnil2 : cs.isNil = false := by
          cases hcs : cs.isNil
          · rfl
          · exact absurd hcs hnil
        exact ⟨[s, "index"], by rw [reldocparts_cons s cs hnil2],
               Or.inr ⟨["index"], rfl, by simp⟩⟩
    · rcases shapeF cs (d ++ [s]) p hp2 with ⟨t2, _, hsp⟩
      rcases ShapeProp_parts t2 (d ++ [s]) p hsp with ⟨e, he, hne⟩
      refine ⟨s :: e, ?_, Or.inr ⟨e, rfl, hne⟩⟩
      rw [he, List.append_assoc]
      rfl
/-- shapeF decomposes an output path of a forest into the sibling
subtree that produced it. -/
theorem shapeF : ∀ (ts : MForest) (d p : List String), p ∈ outpathsF ts d →
    ∃ t2 ∈ ts.toList, ShapeProp t2 d p
  | .nil, _, p, hp => by
    rw [outpathsF] at hp
    exact absurd hp (List.not_mem_nil _)
  | .cons t ts, d, p, hp => by
    rw [outpathsF] at hp
    rw [MForest.toList]
    rcases List.mem_append.mp hp with h | h
    · exact ⟨t, List.mem_cons_self _ _, shapeT t d p h⟩
    · rcases shapeF ts d p h with ⟨t2, ht2, hsp⟩
      exact ⟨t2, List.mem_cons_of_mem _ ht2, hsp⟩
end

/-- shape_disjoint shows two siblings with distinct short names and no
index/index_ leaf collision produce no common output path. -/
theorem shape_disjoint (t1 t2 : MTree) (d p : List String)
    (h1 : ShapeProp t1 d p) (h2 : ShapeProp t2 d p)
    (hs : t1.shortname ≠ t2.shortname)
    (hp1 : ¬ (isLeafNamed "index" t1 = true ∧ isLeafNamed "index_" t2 = true))
    (hp2 : ¬ (isLeafNamed "index_" t1 = true ∧ isLeafNamed "index" t2 = true)) :
    False := by
  obtain ⟨e1, he1, hc1⟩ := h1
  obtain ⟨e2, he2, hc2⟩ := h2
  have heq : e1 = e2 := List.append_cancel_left (he1.symm.trans he2)
  subst heq
  rcases hc1 with ⟨hn1, hl1⟩ | ⟨x1, hx1, hne1⟩ <;>
    rcases hc2 with ⟨hn2, hl2⟩ | ⟨x2, hx2, hne2⟩
  · have hk : leafkey t1.shortname = leafkey t2.shortname := by
      have h := hl1.symm.trans hl2
      simpa using h
    rcases leafkey_eq_cases _ _ hk hs with ⟨ha, hb⟩ | ⟨ha, hb⟩
    · exact hp1 ⟨(isLeafNamed_iff _ _).mpr ⟨ha, hn1⟩, (isLeafNamed_iff _ _).mpr ⟨hb, hn2⟩⟩
    · exact hp2 ⟨(isLeafNamed_iff _ _).mpr ⟨ha, hn1⟩, (isLeafNamed_iff _ _).mpr ⟨hb, hn2⟩⟩
  · have h := hl1.symm.trans hx2
    injection h with _ h2
    exact hne2 h2.symm
  · have h := hx1.symm.trans hl2
    injection h with _ h2
    exact hne1 h2
  · have h := hx1.symm.trans hx2
    injection h with hh _
    exact hs hh

mutual
/-- nodupT shows the output paths of a well-formed subtree are pairwise
distinct. -/
theorem nodupT : ∀ (t : MTree) (d : List String), goodT t = true → (outpathsT t d).Nodup
  | .node s cs, d, hg => by
    rw [goodT, Bool.and_eq_true, Bool.and_eq_true] at hg
    obtain ⟨⟨hnodup, hpairn⟩, hgf⟩ := hg
    rw [Bool.not_eq_true'] at hpairn
    rw [outpathsT]
    apply List.nodup_cons.mpr
    constructor
    · intro hmem
      cases cs with
      | nil =>
        rw [outpathsF] at hmem
        exact absurd hmem (List.not_mem_nil _)
      | cons t0 ts0 =>
        rcases shapeF (MForest.cons t0 ts0) (d ++ [s]) _ hmem with ⟨t2, _, hsp⟩
        obtain ⟨e, he, hc⟩ := hsp
        rw [List.append_assoc] at he
        have he2 : reldocparts s (MForest.cons t0 ts0) = s :: e :=
          List.append_cancel_left he
        rw [reldocparts_cons s (MForest.cons t0 ts0) rfl] at he2
        injection he2 with _ he3
        rcases hc with ⟨_, hl⟩ | ⟨x, hx, hnex⟩
        · rw [← he3] at hl
          have h4 : leafkey t2.shortname = "index" := by simpa using hl.symm
          exact leafkey_ne_index _ h4
        · rw [← he3] at hx
          injection hx with _ h5
          exact hnex h5.symm
    · exact nodupF cs (d ++ [s]) hgf hnodup hpairn
/-- nodupF shows the output paths of a well-formed forest of siblings
are pairwise distinct. -/
theorem nodupF : ∀ (ts : MForest) (d : List String), goodF ts = true →
    nodupBool ts.shortnames = true → hasLeafIndexPair ts = false →
    (outpathsF ts d).Nodup
  | .nil, d, _, _, _ => by
    rw [outpathsF]
    exact List.nodup_nil
  | .cons t ts, d, hg, hnd, hpr => by
    rw [goodF, Bool.and_eq_true] at hg
    obtain ⟨hgt, hgf⟩ := hg
    rw [MForest.shortnames, nodupBool, Bool.and_eq_true] at hnd
    obtain ⟨hnotin, hnd2⟩ := hnd
    rw [Bool.not_eq_true', decide_eq_false_iff_not] at hnotin
    have hprts : hasLeafIndexPair ts = false := by
      cases hx : hasLeafIndexPair ts
      · rfl
      · exfalso
        rw [hasLeafIndexPair, Bool.and_eq_true] at hx
        obtain ⟨hi, hj⟩ := hx
        have hi2 : (MForest.cons t ts).anyTree (isLeafNamed "index") = true := by
          rw [MForest.anyTree, hi]
          simp
        have hj2 : (MForest.cons t ts).anyTree (isLeafNamed "index_") = true := by
          rw [MForest.anyTree, hj]
          simp
        rw [hasLeafIndexPair, hi2, hj2] at hpr
        simp at hpr
    rw [outpathsF]
    apply List.Nodup.append (nodupT t d hgt) (nodupF ts d hgf hnd2 hprts)
    intro p hp1 hp2
    rcases shapeF ts d p hp2 with ⟨t2, hmem2, hsp2⟩
    have hsp1 := shapeT t d p hp1
    apply shape_disjoint t t2 d p hsp1 hsp2
    · intro hseq
      have hmem3 := mem_toList_shortname ts t2 hmem2
      rw [← hseq] at hmem3
      exact hnotin hmem3
    · rintro ⟨hidx, hidx2⟩
      have ha : (MForest.cons t ts).anyTree (isLeafNamed "index") = true := by
        rw [MForest.anyTree, hidx]
        simp
      have hb : (MForest.cons t ts).anyTree (isLeafNamed "index_") = true := by
        rw [MForest.anyTree, anyTree_of_mem _ ts t2 hmem2 hidx2]
        simp
      rw [hasLeafIndexPair, ha, hb] at hpr
      simp at hpr
    · rintro ⟨hidx, hidx2⟩
      have ha : (MForest.cons t ts).anyTree (isLeafNamed "index_") = true := by
        rw [MForest.anyTree, hidx]
        simp
      have hb : (MForest.cons t ts).anyTree (isLeafNamed "index") = true := by
        rw [MForest.anyTree, anyTree_of_mem _ ts t2 hmem2 hidx2]
        simp
      rw [hasLeafIndexPair, hb, ha] at hpr
      simp at hpr
end

/-- C1 (amended): in a documentation tree whose sibling lists have
pairwise distinct short names (true of every module hierarchy) and
never contain both a childless module named index and a childless
module named index_, the out_filepath component lists of the project
root and of all module nodes are pairwise distinct; each node's path is
determined by its position: the project root maps to index, a node with
children to shortname/index, and a childless node to its shortname with
an underscore appended exactly when the shortname is index.  The
excluded index/index_ sibling pair is a genuine collision, exhibited by
c1_outpaths_collision. -/
theorem project_outpaths_nodup (cs : MForest) (hgood : goodF cs = true)
    (hnodup : nodupBool cs.shortnames = true)
    (hpair : hasLeafIndexPair cs = false) :
    (project_outpaths cs).Nodup := by
  rw [project_outpaths]
  apply List.nodup_cons.mpr
  refine ⟨?_, nodupF cs [] hgood hnodup hpair⟩
  intro hmem
  rcases shapeF cs [] _ hmem with ⟨t2, _, hsp⟩
  obtain ⟨e, he, hc⟩ := hsp
  rw [List.nil_append] at he
  rcases hc with ⟨_, hl⟩ | ⟨x, hx, hnex⟩
  · rw [← he] at hl
    have h3 : "index" = leafkey t2.shortname := by simpa using hl
    exact leafkey_ne_index _ h3.symm
  · rw [← he] at hx
    injection hx with _ h2
    exact hnex h2.symm

/-- C1 witness: a concrete well-formed documentation forest, whose
output paths are pairwise distinct. -/
theorem project_outpaths_nodup_witness :
    (goodF c1Fixture = true ∧ nodupBool (MForest.shortnames c1Fixture) = true
      ∧ hasLeafIndexPair c1Fixture = false)
    ∧ (project_outpaths c1Fixture).Nodup :=
  ⟨⟨by decide, by decide, by decide⟩,
   project_outpaths_nodup c1Fixture (by decide) (by decide) (by decide)⟩

/-- C1 counterexample: two distinct childless sibling modules named
index and index_ both map to the output name index_, so out_filepath is
not collision free as claimed. -/
theorem c1_outpaths_collision :
    ¬ (project_outpaths c1Collision).Nodup := by decide

end SpruceProject
